import Mathlib

/-!
Shallow embedding of the abort-controller-x core:
the `AbortError` module (src/es/AbortError.js) and the `all` / `race`
combinators (src/lib/all.js).

JavaScript runtime values that can appear as rejection reasons are embedded
as the inductive type `JsValue`.  The combinators are embedded as state
machines: each settlement of a promise runs one atomic handler (a microtask),
so a complete run of a combinator is a fold of the per-settlement step
function over the list of indices in settlement order.
-/

namespace AbortControllerX

/-- A JavaScript value, with just enough structure for the library:
objects carry a realm/class brand (standing for which copy of a class
constructed them, irrelevant to structural checks), a `name` property and a
`message` property. -/
inductive JsValue where
  | vnull
  | vundefined
  | vbool (b : Bool)
  | vnum (n : Int)
  | vstr (s : String)
  | vfunc (name : String)
  | vobj (brand : String) (name : JsValue) (message : JsValue)
deriving DecidableEq, Repr

/-- The JavaScript `typeof` operator on embedded values.  Note that
`typeof null` is the string "object". -/
def jsTypeof : JsValue → String
  | .vnull => "object"
  | .vundefined => "undefined"
  | .vbool _ => "boolean"
  | .vnum _ => "number"
  | .vstr _ => "string"
  | .vfunc _ => "function"
  | .vobj _ _ _ => "object"

/-- Property access `v.name`: defined on objects and functions, `undefined`
on every other value. -/
def jsGetName : JsValue → JsValue
  | .vobj _ n _ => n
  | .vfunc n => .vstr n
  | _ => .vundefined

/-- Strict equality `v === null`. -/
def jsIsNull : JsValue → Bool
  | .vnull => true
  | _ => false

/-- Strict equality of a value against a string literal: `v === s` is value
equality when `v` is a string and false for every other type. -/
def jsStrictEqStr (v : JsValue) (s : String) : Bool :=
  match v with
  | .vstr t => t == s
  | _ => false

/-- The value `new AbortError()` from src/es/AbortError.js: an object whose
`name` is the string "AbortError" and whose `message` is the fixed message.
The `brand` argument records which realm/copy of the class built it; the
constructor body fixes only `name` and `message`. -/
def mkAbortError (brand : String) : JsValue :=
  .vobj brand (.vstr "AbortError") (.vstr "The operation has been aborted")

/-- `isAbortError` from src/es/AbortError.js:
`typeof error === 'object' && error !== null && error.name === 'AbortError'`. -/
def isAbortError (error : JsValue) : Bool :=
  jsTypeof error == "object" && !(jsIsNull error) &&
    jsStrictEqStr (jsGetName error) "AbortError"

/-- An `AbortSignal` as the combinators consume it: only its `aborted` flag
is read. -/
structure Signal where
  aborted : Bool
deriving DecidableEq, Repr

/-- `throwIfAborted` from src/es/AbortError.js: throws a fresh `AbortError`
when the signal is aborted, otherwise does nothing. -/
def throwIfAborted (signal : Signal) : Except JsValue Unit :=
  if signal.aborted then .error (mkAbortError "es") else .ok ()

/-- `rethrowAbortError` from src/es/AbortError.js: throws `error` when it is
an abort error, otherwise returns. -/
def rethrowAbortError (error : JsValue) : Except JsValue Unit :=
  if isAbortError error then .error error else .ok ()

/-- `catchAbortError` from src/es/AbortError.js: returns when `error` is an
abort error, otherwise throws it. -/
def catchAbortError (error : JsValue) : Except JsValue Unit :=
  if isAbortError error then .ok () else .error error

/-! ### The `all` combinator, src/lib/all.js -/

/-- The settlement a promise ends with: fulfilled with a value or rejected
with a reason. -/
inductive Settlement (α : Type) where
  | fulfilled (value : α)
  | rejected (reason : JsValue)
deriving DecidableEq, Repr

/-- The mutable state of one `all` call, after the initial-abort check:
the recorded `rejection` (the JS variable holds `undefined` or a
`\x7breason\x7d` wrapper, embedded as `Option`), the `results` array
(`new Array(n)`, holes embedded as `none`), the settled counter, whether the
abort listener is still attached to the outer signal, whether the inner
abort controller was aborted, and the delivered `outcome` of the promise
(`none` while still pending). -/
structure AllState (α : Type) where
  rejection : Option JsValue
  results : List (Option α)
  settledCount : Nat
  listenerAttached : Bool
  innerAborted : Bool
  outcome : Option (Except JsValue (List (Option α)))
deriving Repr

/-- The state of `all` right after `executor` returned `n` promises:
no rejection recorded, `new Array(n)` of holes, zero settled, abort
listener attached, inner controller not aborted, promise pending. -/
def allInit (α : Type) (n : Nat) : AllState α :=
  { rejection := none
    results := List.replicate n none
    settledCount := 0
    listenerAttached := true
    innerAborted := false
    outcome := none }

/-- The guard of the rejection handler in `all`:
`rejection == null || (!isAbortError(reason) && isAbortError(rejection.reason))`. -/
def shouldRecord (current : Option JsValue) (reason : JsValue) : Bool :=
  match current with
  | none => true
  | some old => !(isAbortError reason) && isAbortError old

/-- The `settled()` helper of `all`: bump the counter; when it reaches the
number of promises, detach the abort listener and settle the aggregate
promise from the recorded rejection or the results array. -/
def allSettled (n : Nat) (s : AllState α) : AllState α :=
  let s := { s with settledCount := s.settledCount + 1 }
  if s.settledCount = n then
    { s with
        listenerAttached := false
        outcome := some (match s.rejection with
          | some r => .error r
          | none => .ok s.results) }
  else s

/-- One settlement handler of `all`, for the promise at index `i` of
`outcomes`: the fulfillment handler stores the value at index `i` and calls
`settled()`; the rejection handler aborts the inner controller, records the
reason subject to `shouldRecord`, and calls `settled()`.  An index with no
promise has no handler. -/
def allStep (outcomes : List (Settlement α)) (s : AllState α) (i : Nat) :
    AllState α :=
  match outcomes[i]? with
  | some (.fulfilled v) =>
      allSettled outcomes.length { s with results := s.results.set i (some v) }
  | some (.rejected reason) =>
      allSettled outcomes.length
        { s with
            innerAborted := true
            rejection :=
              if shouldRecord s.rejection reason then some reason
              else s.rejection }
  | none => s

/-- The state of one `all` call after the promises settle in the order given
by `order` (a list of indices into `outcomes`). -/
def allFoldState (outcomes : List (Settlement α)) (order : List Nat) :
    AllState α :=
  order.foldl (allStep outcomes) (allInit α outcomes.length)

/-- The observable result of an `all` or `race` call: either the promise was
rejected before the executor was invoked (the initial-abort short circuit),
or the executor ran and the call is described by a final machine state. -/
inductive CombinatorRun (σ : Type) where
  | immediateReject (reason : JsValue)
  | ran (finalState : σ)
deriving Repr

/-- The `all` function from src/lib/all.js.  When `signal.aborted` the
promise is rejected with a fresh `AbortError` and `executor` is not invoked;
otherwise `executor` produces the promises and the machine runs over the
settlement order. -/
def allModel (signal : Signal) (executor : Unit → List (Settlement α))
    (order : List Nat) : CombinatorRun (AllState α) :=
  if signal.aborted then .immediateReject (mkAbortError "lib")
  else .ran (allFoldState (executor ()) order)

/-- The aggregate outcome (if already delivered) of a non-short-circuited
`all` run. -/
def allOutcomeOf (outcomes : List (Settlement α)) (order : List Nat) :
    Option (Except JsValue (List (Option α))) :=
  (allFoldState outcomes order).outcome

/-! ### The `race` combinator, src/lib/all.js (second half) -/

/-- The mutable state of one `race` call after the initial-abort check: the
recorded `result` (the JS variable holds `undefined` or a settlement
record), the settled counter, the listener flag, the inner-abort flag and
the delivered outcome. -/
structure RaceState (α : Type) where
  result : Option (Settlement α)
  settledCount : Nat
  listenerAttached : Bool
  innerAborted : Bool
  outcome : Option (Except JsValue α)
deriving Repr

/-- The initial state of the `race` machine. -/
def raceInit (α : Type) : RaceState α :=
  { result := none
    settledCount := 0
    listenerAttached := true
    innerAborted := false
    outcome := none }

/-- The guard of the rejection handler in `race`:
`result == null || (!isAbortError(reason) && (result.status === 'fulfilled'
|| isAbortError(result.reason)))`. -/
def raceShouldRecord (current : Option (Settlement α)) (reason : JsValue) :
    Bool :=
  match current with
  | none => true
  | some (.fulfilled _) => !(isAbortError reason)
  | some (.rejected old) => !(isAbortError reason) && isAbortError old

/-- The `settled(result)` helper of `race`: abort the inner controller, bump
the counter; when it reaches the number of promises, detach the listener and
settle the aggregate promise from the recorded result.  (The JS code reads
`result.status` there; the recorded result is never `undefined` at that
point, since every handler records on a `null` result before calling
`settled`, so the `none` branch is unreachable in a run.) -/
def raceSettled (n : Nat) (s : RaceState α) : RaceState α :=
  let s := { s with innerAborted := true, settledCount := s.settledCount + 1 }
  if s.settledCount = n then
    { s with
        listenerAttached := false
        outcome := match s.result with
          | some (.fulfilled v) => some (.ok v)
          | some (.rejected r) => some (.error r)
          | none => none }
  else s

/-- One settlement handler of `race` for the promise at index `i`: the
fulfillment handler records the settlement only when nothing is recorded
yet; the rejection handler records subject to `raceShouldRecord`; both then
call `settled`. -/
def raceStep (outcomes : List (Settlement α)) (s : RaceState α) (i : Nat) :
    RaceState α :=
  match outcomes[i]? with
  | some (.fulfilled v) =>
      raceSettled outcomes.length
        { s with result := match s.result with
            | none => some (.fulfilled v)
            | some r => some r }
  | some (.rejected reason) =>
      raceSettled outcomes.length
        { s with result :=
            if raceShouldRecord s.result reason then some (.rejected reason)
            else s.result }
  | none => s

/-- The state of one `race` call after the promises settle in the order
given by `order`. -/
def raceFoldState (outcomes : List (Settlement α)) (order : List Nat) :
    RaceState α :=
  order.foldl (raceStep outcomes) (raceInit α)

/-- The `race` function from src/lib/all.js: initial-abort short circuit,
then the machine runs over the settlement order. -/
def raceModel (signal : Signal) (executor : Unit → List (Settlement α))
    (order : List Nat) : CombinatorRun (RaceState α) :=
  if signal.aborted then .immediateReject (mkAbortError "lib")
  else .ran (raceFoldState (executor ()) order)

/-- The aggregate outcome (if already delivered) of a non-short-circuited
`race` run. -/
def raceOutcomeOf (outcomes : List (Settlement α)) (order : List Nat) :
    Option (Except JsValue α) :=
  (raceFoldState outcomes order).outcome

/-! ### Observation functions on outcomes and settlement orders -/

/-- The reason of the promise at index `i` when it rejects with a genuine
(non-abort) error, `none` otherwise. -/
def genuineReasonAt (outcomes : List (Settlement α)) (i : Nat) :
    Option JsValue :=
  match outcomes[i]? with
  | some (.rejected r) => if isAbortError r then none else some r
  | _ => none

/-- The reason of the promise at index `i` when it rejects, `none`
otherwise. -/
def reasonAt (outcomes : List (Settlement α)) (i : Nat) : Option JsValue :=
  match outcomes[i]? with
  | some (.rejected r) => some r
  | _ => none

/-- The first genuine (non-abort) rejection reason in settlement order. -/
def firstGenuineReason (outcomes : List (Settlement α)) (order : List Nat) :
    Option JsValue :=
  (order.filterMap (genuineReasonAt outcomes)).head?

/-- The first rejection reason in settlement order. -/
def firstReason (outcomes : List (Settlement α)) (order : List Nat) :
    Option JsValue :=
  (order.filterMap (reasonAt outcomes)).head?

/-- The first settlement in settlement order. -/
def firstSettle (outcomes : List (Settlement α)) (order : List Nat) :
    Option (Settlement α) :=
  (order.filterMap (fun i => outcomes[i]?)).head?

/-- The value of the promise at index `i` when it fulfills, `none`
otherwise. -/
def fulfillmentAt (outcomes : List (Settlement α)) (i : Nat) : Option α :=
  match outcomes[i]? with
  | some (.fulfilled v) => some v
  | _ => none

/-- The value of the first fulfillment in settlement order. -/
def firstFulfillment (outcomes : List (Settlement α)) (order : List Nat) :
    Option α :=
  (order.filterMap (fulfillmentAt outcomes)).head?

/-- Decidable form of: every promise rejects. -/
def allRejected (outcomes : List (Settlement α)) : Bool :=
  outcomes.all fun s => match s with | .rejected _ => true | _ => false

/-- Decidable form of: some promise rejects with a genuine (non-abort)
error. -/
def hasGenuineRejection (outcomes : List (Settlement α)) : Bool :=
  outcomes.any fun s =>
    match s with | .rejected r => !(isAbortError r) | _ => false

/-- The aggregate priority rule exactly as the specification words it,
written from the wording of the spec (not from the code), for comparison
with the behaviour of the `race` machine: a genuine rejection always wins;
absent any genuine rejection, the first-recorded fulfillment wins; absent
both, the first-recorded cancellation rejection wins. -/
def specRacePriorityRule (outcomes : List (Settlement α)) (order : List Nat) :
    Option (Except JsValue α) :=
  match firstGenuineReason outcomes order with
  | some g => some (.error g)
  | none =>
      match firstFulfillment outcomes order with
      | some v => some (.ok v)
      | none => (firstReason outcomes order).map .error


/-! ### Helper lemmas: the all machine, componentwise -/

/-- How one settlement updates the recorded rejection of `all`. -/
def rejStep (cur : Option JsValue) : Option (Settlement α) → Option JsValue
  | some (.rejected r) => if shouldRecord cur r then some r else cur
  | _ => cur

theorem allSettled_rejection (n : Nat) (s : AllState α) :
    (allSettled n s).rejection = s.rejection := by
  unfold allSettled; dsimp only; split <;> rfl

theorem allSettled_results (n : Nat) (s : AllState α) :
    (allSettled n s).results = s.results := by
  unfold allSettled; dsimp only; split <;> rfl

theorem allSettled_count (n : Nat) (s : AllState α) :
    (allSettled n s).settledCount = s.settledCount + 1 := by
  unfold allSettled; dsimp only; split <;> rfl

theorem allStep_rejection (outcomes : List (Settlement α)) (s : AllState α)
    (i : Nat) :
    (allStep outcomes s i).rejection = rejStep s.rejection outcomes[i]? := by
  unfold allStep rejStep
  cases h : outcomes[i]? with
  | none => rfl
  | some o => cases o <;> simp [allSettled_rejection]

theorem allFold_rejection (outcomes : List (Settlement α)) :
    ∀ (p : List Nat) (s : AllState α),
      (p.foldl (allStep outcomes) s).rejection
        = p.foldl (fun cur i => rejStep cur outcomes[i]?) s.rejection := by
  intro p
  induction p with
  | nil => intro s; rfl
  | cons i p ih =>
      intro s
      rw [List.foldl_cons, List.foldl_cons, ih, allStep_rejection]

/-- The rejection record of `all` as a fold of `rejStep` over a settlement
order. -/
def rejFold (outcomes : List (Settlement α)) (p : List Nat)
    (cur : Option JsValue) : Option JsValue :=
  p.foldl (fun c i => rejStep c outcomes[i]?) cur

theorem allFold_rejection_eq_rejFold (outcomes : List (Settlement α))
    (p : List Nat) (s : AllState α) :
    (p.foldl (allStep outcomes) s).rejection = rejFold outcomes p s.rejection :=
  allFold_rejection outcomes p s

theorem firstGenuineReason_cons (outcomes : List (Settlement α)) (i : Nat)
    (p : List Nat) :
    firstGenuineReason outcomes (i :: p) =
      match genuineReasonAt outcomes i with
      | some g => some g
      | none => firstGenuineReason outcomes p := by
  unfold firstGenuineReason
  rw [List.filterMap_cons]
  cases genuineReasonAt outcomes i <;> simp

theorem firstReason_cons (outcomes : List (Settlement α)) (i : Nat)
    (p : List Nat) :
    firstReason outcomes (i :: p) =
      match reasonAt outcomes i with
      | some r => some r
      | none => firstReason outcomes p := by
  unfold firstReason
  rw [List.filterMap_cons]
  cases reasonAt outcomes i <;> simp

theorem firstSettle_cons (outcomes : List (Settlement α)) (i : Nat)
    (p : List Nat) :
    firstSettle outcomes (i :: p) =
      match outcomes[i]? with
      | some o => some o
      | none => firstSettle outcomes p := by
  unfold firstSettle
  rw [List.filterMap_cons]
  cases outcomes[i]? <;> simp

theorem rejStep_of_genuine (r : JsValue) (hr : isAbortError r = false)
    (o : Option (Settlement α)) : rejStep (some r) o = some r := by
  cases o with
  | none => rfl
  | some s =>
      cases s with
      | fulfilled v => rfl
      | rejected r2 => simp [rejStep, shouldRecord, hr]

theorem rejFold_genuine (outcomes : List (Settlement α)) (r : JsValue)
    (hr : isAbortError r = false) :
    ∀ p : List Nat, rejFold outcomes p (some r) = some r := by
  intro p
  induction p with
  | nil => rfl
  | cons i p ih =>
      show rejFold outcomes p (rejStep (some r) outcomes[i]?) = some r
      rw [rejStep_of_genuine r hr]
      exact ih

theorem rejFold_abortStart (outcomes : List (Settlement α)) (r : JsValue)
    (hr : isAbortError r = true) :
    ∀ p : List Nat,
      rejFold outcomes p (some r) =
        match firstGenuineReason outcomes p with
        | some g => some g
        | none => some r := by
  intro p
  induction p with
  | nil => rfl
  | cons i p ih =>
      show rejFold outcomes p (rejStep (some r) outcomes[i]?)
        = match firstGenuineReason outcomes (i :: p) with
          | some g => some g
          | none => some r
      rw [firstGenuineReason_cons]
      cases ho : outcomes[i]? with
      | none =>
          have : genuineReasonAt outcomes i = none := by
            unfold genuineReasonAt; rw [ho]
          rw [this]
          simpa [rejStep] using ih
      | some o =>
          cases o with
          | fulfilled v =>
              have : genuineReasonAt outcomes i = none := by
                unfold genuineReasonAt; rw [ho]
              rw [this]
              simpa [rejStep] using ih
          | rejected r2 =>
              cases hr2 : isAbortError r2 with
              | false =>
                  have hg : genuineReasonAt outcomes i = some r2 := by
                    unfold genuineReasonAt; rw [ho]; simp [hr2]
                  rw [hg]
                  have : rejStep (some r)
                      ((some (Settlement.rejected r2)) : Option (Settlement α))
                      = some r2 := by
                    simp [rejStep, shouldRecord, hr, hr2]
                  rw [this]
                  exact rejFold_genuine outcomes r2 hr2 p
              | true =>
                  have hg : genuineReasonAt outcomes i = none := by
                    unfold genuineReasonAt; rw [ho]; simp [hr2]
                  rw [hg]
                  have : rejStep (some r)
                      ((some (Settlement.rejected r2)) : Option (Settlement α))
                      = some r := by
                    simp [rejStep, shouldRecord, hr2]
                  rw [this]
                  exact ih

theorem rejFold_none (outcomes : List (Settlement α)) :
    ∀ p : List Nat,
      rejFold outcomes p none =
        match firstGenuineReason outcomes p with
        | some g => some g
        | none => firstReason outcomes p := by
  intro p
  induction p with
  | nil => rfl
  | cons i p ih =>
      show rejFold outcomes p (rejStep none outcomes[i]?)
        = match firstGenuineReason outcomes (i :: p) with
          | some g => some g
          | none => firstReason outcomes (i :: p)
      rw [firstGenuineReason_cons, firstReason_cons]
      cases ho : outcomes[i]? with
      | none =>
          have h1 : genuineReasonAt outcomes i = none := by
            unfold genuineReasonAt; rw [ho]
          have h2 : reasonAt outcomes i = none := by
            unfold reasonAt; rw [ho]
          rw [h1, h2]
          simpa [rejStep] using ih
      | some o =>
          cases o with
          | fulfilled v =>
              have h1 : genuineReasonAt outcomes i = none := by
                unfold genuineReasonAt; rw [ho]
              have h2 : reasonAt outcomes i = none := by
                unfold reasonAt; rw [ho]
              rw [h1, h2]
              simpa [rejStep] using ih
          | rejected r2 =>
              have hstep : rejStep none
                  ((some (Settlement.rejected r2)) : Option (Settlement α))
                  = some r2 := by
                simp [rejStep, shouldRecord]
              have h2 : reasonAt outcomes i = some r2 := by
                unfold reasonAt; rw [ho]
              cases hr2 : isAbortError r2 with
              | false =>
                  have h1 : genuineReasonAt outcomes i = some r2 := by
                    unfold genuineReasonAt; rw [ho]; simp [hr2]
                  rw [h1, hstep]
                  exact rejFold_genuine outcomes r2 hr2 p
              | true =>
                  have h1 : genuineReasonAt outcomes i = none := by
                    unfold genuineReasonAt; rw [ho]; simp [hr2]
                  rw [h1, h2, hstep]
                  rw [rejFold_abortStart outcomes r2 hr2 p]

theorem allSettled_listener_of_ne (n : Nat) (s : AllState α)
    (h : ¬ s.settledCount + 1 = n) :
    (allSettled n s).listenerAttached = s.listenerAttached := by
  unfold allSettled; dsimp only; rw [if_neg h]

theorem allSettled_outcome_of_ne (n : Nat) (s : AllState α)
    (h : ¬ s.settledCount + 1 = n) :
    (allSettled n s).outcome = s.outcome := by
  unfold allSettled; dsimp only; rw [if_neg h]

theorem allSettled_listener_of_eq (n : Nat) (s : AllState α)
    (h : s.settledCount + 1 = n) :
    (allSettled n s).listenerAttached = false := by
  unfold allSettled; dsimp only; rw [if_pos h]

theorem allSettled_outcome_of_eq (n : Nat) (s : AllState α)
    (h : s.settledCount + 1 = n) :
    (allSettled n s).outcome =
      some (match s.rejection with
        | some r => Except.error r
        | none => Except.ok s.results) := by
  unfold allSettled; dsimp only; rw [if_pos h]

/-- How one settlement updates the results array of `all`. -/
def resStep (outcomes : List (Settlement α)) (res : List (Option α))
    (i : Nat) : List (Option α) :=
  match outcomes[i]? with
  | some (.fulfilled v) => res.set i (some v)
  | _ => res

/-- A settlement handler of `all` at a valid index is `allSettled` applied
to a mutated state; the mutation updates only the rejection record, the
results array and the inner-abort flag. -/
theorem allStep_eq_settled (outcomes : List (Settlement α)) (s : AllState α)
    (i : Nat) (hi : i < outcomes.length) :
    ∃ s2 : AllState α,
      allStep outcomes s i = allSettled outcomes.length s2 ∧
      s2.settledCount = s.settledCount ∧
      s2.listenerAttached = s.listenerAttached ∧
      s2.outcome = s.outcome ∧
      s2.rejection = rejStep s.rejection outcomes[i]? ∧
      s2.results = resStep outcomes s.results i := by
  obtain ⟨o, ho⟩ : ∃ o, outcomes[i]? = some o :=
    ⟨_, List.getElem?_eq_getElem hi⟩
  cases o with
  | fulfilled v =>
      refine ⟨{ s with results := s.results.set i (some v) },
        ?_, rfl, rfl, rfl, ?_, ?_⟩
      · unfold allStep; rw [ho]
      · simp [rejStep, ho]
      · simp [resStep, ho]
  | rejected r =>
      refine ⟨{ s with
          innerAborted := true
          rejection := if shouldRecord s.rejection r then some r
            else s.rejection }, ?_, rfl, rfl, rfl, ?_, ?_⟩
      · unfold allStep; rw [ho]
      · simp only [rejStep, ho]
      · simp [resStep, ho]

theorem allStep_pending (outcomes : List (Settlement α)) (s : AllState α)
    (i : Nat) (hi : i < outcomes.length)
    (h : ¬ s.settledCount + 1 = outcomes.length) :
    (allStep outcomes s i).settledCount = s.settledCount + 1 ∧
    (allStep outcomes s i).listenerAttached = s.listenerAttached ∧
    (allStep outcomes s i).outcome = s.outcome := by
  obtain ⟨s2, hs2, hc, hl, hout, _, _⟩ := allStep_eq_settled outcomes s i hi
  have hc2 : ¬ s2.settledCount + 1 = outcomes.length := by rw [hc]; exact h
  rw [hs2]
  refine ⟨?_, ?_, ?_⟩
  · rw [allSettled_count, hc]
  · rw [allSettled_listener_of_ne _ _ hc2, hl]
  · rw [allSettled_outcome_of_ne _ _ hc2, hout]

theorem allFold_pending (outcomes : List (Settlement α)) :
    ∀ (p : List Nat) (s : AllState α),
      (∀ i ∈ p, i < outcomes.length) →
      s.settledCount + p.length < outcomes.length →
      (p.foldl (allStep outcomes) s).settledCount = s.settledCount + p.length ∧
      (p.foldl (allStep outcomes) s).listenerAttached = s.listenerAttached ∧
      (p.foldl (allStep outcomes) s).outcome = s.outcome := by
  intro p
  induction p with
  | nil => intro s _ _; exact ⟨rfl, rfl, rfl⟩
  | cons i p ih =>
      intro s hmem hlt
      have hi : i < outcomes.length := hmem i (List.mem_cons_self i p)
      have hlen : (i :: p).length = p.length + 1 := rfl
      rw [hlen] at hlt
      have hne : ¬ s.settledCount + 1 = outcomes.length := by omega
      obtain ⟨h1, h2, h3⟩ := allStep_pending outcomes s i hi hne
      rw [List.foldl_cons]
      obtain ⟨g1, g2, g3⟩ := ih (allStep outcomes s i)
        (fun j hj => hmem j (List.mem_cons_of_mem i hj))
        (by rw [h1]; omega)
      refine ⟨?_, ?_, ?_⟩
      · rw [g1, h1, hlen]; omega
      · rw [g2, h2]
      · rw [g3, h3]

theorem allFold_completes (outcomes : List (Settlement α)) :
    ∀ (p : List Nat) (s : AllState α),
      (∀ i ∈ p, i < outcomes.length) →
      s.settledCount + p.length = outcomes.length →
      p ≠ [] →
      (p.foldl (allStep outcomes) s).settledCount = outcomes.length ∧
      (p.foldl (allStep outcomes) s).listenerAttached = false ∧
      (p.foldl (allStep outcomes) s).outcome =
        some (match (p.foldl (allStep outcomes) s).rejection with
          | some r => Except.error r
          | none => Except.ok (p.foldl (allStep outcomes) s).results) := by
  intro p
  induction p with
  | nil => intro s _ _ hne; exact absurd rfl hne
  | cons i p ih =>
      intro s hmem hcount _
      have hi : i < outcomes.length := hmem i (List.mem_cons_self i p)
      have hlen : (i :: p).length = p.length + 1 := rfl
      rw [hlen] at hcount
      rw [List.foldl_cons]
      cases p with
      | nil =>
          have heq : s.settledCount + 1 = outcomes.length := by
            simpa using hcount
          obtain ⟨s2, hs2, hc, _, _, _, _⟩ :=
            allStep_eq_settled outcomes s i hi
          have hc2 : s2.settledCount + 1 = outcomes.length := by
            rw [hc]; exact heq
          rw [List.foldl_nil, hs2]
          refine ⟨?_, allSettled_listener_of_eq _ _ hc2, ?_⟩
          · rw [allSettled_count, hc, heq]
          · rw [allSettled_outcome_of_eq _ _ hc2, allSettled_rejection,
              allSettled_results]
      | cons j q =>
          have hne : ¬ s.settledCount + 1 = outcomes.length := by
            have : 1 ≤ (j :: q).length := by simp
            omega
          obtain ⟨h1, _, _⟩ := allStep_pending outcomes s i hi hne
          exact ih (allStep outcomes s i)
            (fun k hk => hmem k (List.mem_cons_of_mem i hk))
            (by rw [h1]; omega)
            (by simp)

theorem allStep_results (outcomes : List (Settlement α)) (s : AllState α)
    (i : Nat) :
    (allStep outcomes s i).results = resStep outcomes s.results i := by
  unfold allStep resStep
  cases h : outcomes[i]? with
  | none => rfl
  | some o => cases o <;> simp [allSettled_results]

theorem allFold_results (outcomes : List (Settlement α)) :
    ∀ (p : List Nat) (s : AllState α),
      (p.foldl (allStep outcomes) s).results
        = p.foldl (resStep outcomes) s.results := by
  intro p
  induction p with
  | nil => intro s; rfl
  | cons i p ih =>
      intro s
      rw [List.foldl_cons, List.foldl_cons, ih, allStep_results]

theorem resStep_length (outcomes : List (Settlement α))
    (res : List (Option α)) (i : Nat) :
    (resStep outcomes res i).length = res.length := by
  unfold resStep
  cases h : outcomes[i]? with
  | none => rfl
  | some o => cases o <;> simp

theorem resFold_length (outcomes : List (Settlement α)) :
    ∀ (p : List Nat) (res : List (Option α)),
      (p.foldl (resStep outcomes) res).length = res.length := by
  intro p
  induction p with
  | nil => intro res; rfl
  | cons i p ih =>
      intro res
      rw [List.foldl_cons, ih, resStep_length]

theorem resFold_getElem (outcomes : List (Settlement α)) :
    ∀ (p : List Nat) (res : List (Option α)) (j : Nat),
      res.length = outcomes.length → j < outcomes.length →
      (p.foldl (resStep outcomes) res)[j]? =
        if j ∈ p then
          match outcomes[j]? with
          | some (.fulfilled v) => some (some v)
          | _ => res[j]?
        else res[j]? := by
  intro p
  induction p with
  | nil =>
      intro res j _ _
      simp
  | cons i p ih =>
      intro res j hres hj
      rw [List.foldl_cons]
      have hlen : (resStep outcomes res i).length = outcomes.length := by
        rw [resStep_length, hres]
      rw [ih (resStep outcomes res i) j hlen hj]
      by_cases hij : i = j
      · subst hij
        have hset : (resStep outcomes res i)[i]? =
            match outcomes[i]? with
            | some (.fulfilled v) => some (some v)
            | _ => res[i]? := by
          unfold resStep
          cases ho : outcomes[i]? with
          | none => rfl
          | some o =>
              cases o with
              | fulfilled v =>
                  have hilt : i < res.length := by rw [hres]; exact hj
                  simp [List.getElem?_set_eq_of_lt _ hilt]
              | rejected r => rfl
        by_cases hp : i ∈ p
        · rw [if_pos hp, if_pos (List.mem_cons_self i p)]
          cases ho : outcomes[i]? with
          | none => rw [hset, ho]
          | some o =>
              cases o with
              | fulfilled v => rfl
              | rejected r => rw [hset, ho]
        · rw [if_neg hp, if_pos (List.mem_cons_self i p), hset]
      · have hstep : (resStep outcomes res i)[j]? = res[j]? := by
          unfold resStep
          cases ho : outcomes[i]? with
          | none => rfl
          | some o =>
              cases o with
              | fulfilled v => exact List.getElem?_set_ne hij
              | rejected r => rfl
        by_cases hp : j ∈ p
        · rw [if_pos hp, if_pos (List.mem_cons_of_mem i hp)]
          cases ho : outcomes[j]? with
          | none => rw [hstep]
          | some o =>
              cases o with
              | fulfilled v => rfl
              | rejected r => rw [hstep]
        · have hnotin : ¬ j ∈ i :: p := by
            intro hmem
            rcases List.mem_cons.mp hmem with h | h
            · exact hij h.symm
            · exact hp h
          rw [if_neg hp, if_neg hnotin, hstep]

/-! ### Helper lemmas: the race machine, componentwise -/

/-- How one settlement updates the recorded result of `race`. -/
def raceResStep (cur : Option (Settlement α)) :
    Option (Settlement α) → Option (Settlement α)
  | some (.fulfilled v) =>
      match cur with
      | none => some (.fulfilled v)
      | some r => some r
  | some (.rejected r) =>
      if raceShouldRecord cur r then some (.rejected r) else cur
  | none => cur

/-- The recorded result of `race` as a fold of `raceResStep` over a
settlement order. -/
def raceResFold (outcomes : List (Settlement α)) (p : List Nat)
    (cur : Option (Settlement α)) : Option (Settlement α) :=
  p.foldl (fun c i => raceResStep c outcomes[i]?) cur

theorem raceSettled_result (n : Nat) (s : RaceState α) :
    (raceSettled n s).result = s.result := by
  unfold raceSettled; dsimp only; split <;> rfl

theorem raceSettled_count (n : Nat) (s : RaceState α) :
    (raceSettled n s).settledCount = s.settledCount + 1 := by
  unfold raceSettled; dsimp only; split <;> rfl

theorem raceSettled_listener_of_ne (n : Nat) (s : RaceState α)
    (h : ¬ s.settledCount + 1 = n) :
    (raceSettled n s).listenerAttached = s.listenerAttached := by
  unfold raceSettled; dsimp only; rw [if_neg h]

theorem raceSettled_outcome_of_ne (n : Nat) (s : RaceState α)
    (h : ¬ s.settledCount + 1 = n) :
    (raceSettled n s).outcome = s.outcome := by
  unfold raceSettled; dsimp only; rw [if_neg h]

theorem raceSettled_listener_of_eq (n : Nat) (s : RaceState α)
    (h : s.settledCount + 1 = n) :
    (raceSettled n s).listenerAttached = false := by
  unfold raceSettled; dsimp only; rw [if_pos h]

theorem raceSettled_outcome_of_eq (n : Nat) (s : RaceState α)
    (h : s.settledCount + 1 = n) :
    (raceSettled n s).outcome =
      match s.result with
      | some (.fulfilled v) => some (.ok v)
      | some (.rejected r) => some (.error r)
      | none => none := by
  unfold raceSettled; dsimp only; rw [if_pos h]

/-- A settlement handler of `race` at a valid index is `raceSettled` applied
to a state mutated only in its recorded result. -/
theorem raceStep_eq_settled (outcomes : List (Settlement α))
    (s : RaceState α) (i : Nat) (hi : i < outcomes.length) :
    ∃ s2 : RaceState α,
      raceStep outcomes s i = raceSettled outcomes.length s2 ∧
      s2.settledCount = s.settledCount ∧
      s2.listenerAttached = s.listenerAttached ∧
      s2.outcome = s.outcome ∧
      s2.result = raceResStep s.result outcomes[i]? := by
  obtain ⟨o, ho⟩ : ∃ o, outcomes[i]? = some o :=
    ⟨_, List.getElem?_eq_getElem hi⟩
  cases o with
  | fulfilled v =>
      refine ⟨{ s with result := match s.result with
          | none => some (.fulfilled v)
          | some r => some r }, ?_, rfl, rfl, rfl, ?_⟩
      · unfold raceStep; rw [ho]
      · simp only [raceResStep, ho]
  | rejected r =>
      refine ⟨{ s with result :=
          if raceShouldRecord s.result r then some (.rejected r)
          else s.result }, ?_, rfl, rfl, rfl, ?_⟩
      · unfold raceStep; rw [ho]
      · simp only [raceResStep, ho]

theorem raceStep_result (outcomes : List (Settlement α)) (s : RaceState α)
    (i : Nat) :
    (raceStep outcomes s i).result = raceResStep s.result outcomes[i]? := by
  unfold raceStep
  cases h : outcomes[i]? with
  | none => rfl
  | some o =>
      cases o with
      | fulfilled v => rw [raceSettled_result]; simp only [raceResStep]
      | rejected r => rw [raceSettled_result]; simp only [raceResStep]

theorem raceFold_result (outcomes : List (Settlement α)) :
    ∀ (p : List Nat) (s : RaceState α),
      (p.foldl (raceStep outcomes) s).result
        = raceResFold outcomes p s.result := by
  intro p
  induction p with
  | nil => intro s; rfl
  | cons i p ih =>
      intro s
      rw [List.foldl_cons, ih]
      show raceResFold outcomes p (raceStep outcomes s i).result
        = raceResFold outcomes p (raceResStep s.result outcomes[i]?)
      rw [raceStep_result]

theorem raceStep_pending (outcomes : List (Settlement α)) (s : RaceState α)
    (i : Nat) (hi : i < outcomes.length)
    (h : ¬ s.settledCount + 1 = outcomes.length) :
    (raceStep outcomes s i).settledCount = s.settledCount + 1 ∧
    (raceStep outcomes s i).listenerAttached = s.listenerAttached ∧
    (raceStep outcomes s i).outcome = s.outcome := by
  obtain ⟨s2, hs2, hc, hl, hout, _⟩ := raceStep_eq_settled outcomes s i hi
  have hc2 : ¬ s2.settledCount + 1 = outcomes.length := by rw [hc]; exact h
  rw [hs2]
  refine ⟨?_, ?_, ?_⟩
  · rw [raceSettled_count, hc]
  · rw [raceSettled_listener_of_ne _ _ hc2, hl]
  · rw [raceSettled_outcome_of_ne _ _ hc2, hout]

theorem raceFold_pending (outcomes : List (Settlement α)) :
    ∀ (p : List Nat) (s : RaceState α),
      (∀ i ∈ p, i < outcomes.length) →
      s.settledCount + p.length < outcomes.length →
      (p.foldl (raceStep outcomes) s).settledCount
        = s.settledCount + p.length ∧
      (p.foldl (raceStep outcomes) s).listenerAttached
        = s.listenerAttached ∧
      (p.foldl (raceStep outcomes) s).outcome = s.outcome := by
  intro p
  induction p with
  | nil => intro s _ _; exact ⟨rfl, rfl, rfl⟩
  | cons i p ih =>
      intro s hmem hlt
      have hi : i < outcomes.length := hmem i (List.mem_cons_self i p)
      have hlen : (i :: p).length = p.length + 1 := rfl
      rw [hlen] at hlt
      have hne : ¬ s.settledCount + 1 = outcomes.length := by omega
      obtain ⟨h1, h2, h3⟩ := raceStep_pending outcomes s i hi hne
      rw [List.foldl_cons]
      obtain ⟨g1, g2, g3⟩ := ih (raceStep outcomes s i)
        (fun j hj => hmem j (List.mem_cons_of_mem i hj))
        (by rw [h1]; omega)
      refine ⟨?_, ?_, ?_⟩
      · rw [g1, h1, hlen]; omega
      · rw [g2, h2]
      · rw [g3, h3]

theorem raceFold_completes (outcomes : List (Settlement α)) :
    ∀ (p : List Nat) (s : RaceState α),
      (∀ i ∈ p, i < outcomes.length) →
      s.settledCount + p.length = outcomes.length →
      p ≠ [] →
      (p.foldl (raceStep outcomes) s).settledCount = outcomes.length ∧
      (p.foldl (raceStep outcomes) s).listenerAttached = false ∧
      (p.foldl (raceStep outcomes) s).outcome =
        (match (p.foldl (raceStep outcomes) s).result with
          | some (.fulfilled v) => some (.ok v)
          | some (.rejected r) => some (.error r)
          | none => none) := by
  intro p
  induction p with
  | nil => intro s _ _ hne; exact absurd rfl hne
  | cons i p ih =>
      intro s hmem hcount _
      have hi : i < outcomes.length := hmem i (List.mem_cons_self i p)
      have hlen : (i :: p).length = p.length + 1 := rfl
      rw [hlen] at hcount
      rw [List.foldl_cons]
      cases p with
      | nil =>
          have heq : s.settledCount + 1 = outcomes.length := by
            simpa using hcount
          obtain ⟨s2, hs2, hc, _, _, _⟩ :=
            raceStep_eq_settled outcomes s i hi
          have hc2 : s2.settledCount + 1 = outcomes.length := by
            rw [hc]; exact heq
          rw [List.foldl_nil, hs2]
          refine ⟨?_, raceSettled_listener_of_eq _ _ hc2, ?_⟩
          · rw [raceSettled_count, hc, heq]
          · rw [raceSettled_outcome_of_eq _ _ hc2, raceSettled_result]
      | cons j q =>
          have hne : ¬ s.settledCount + 1 = outcomes.length := by
            have : 1 ≤ (j :: q).length := by simp
            omega
          obtain ⟨h1, _, _⟩ := raceStep_pending outcomes s i hi hne
          exact ih (raceStep outcomes s i)
            (fun k hk => hmem k (List.mem_cons_of_mem i hk))
            (by rw [h1]; omega)
            (by simp)

theorem raceResStep_of_genuineRejected (r : JsValue)
    (hr : isAbortError r = false) (o : Option (Settlement α)) :
    raceResStep (some (Settlement.rejected r)) o
      = some (Settlement.rejected r) := by
  cases o with
  | none => rfl
  | some s =>
      cases s with
      | fulfilled v => rfl
      | rejected r2 => simp [raceResStep, raceShouldRecord, hr]

theorem raceResFold_genuineRejected (outcomes : List (Settlement α))
    (r : JsValue) (hr : isAbortError r = false) :
    ∀ p : List Nat,
      raceResFold outcomes p (some (Settlement.rejected r))
        = some (Settlement.rejected r) := by
  intro p
  induction p with
  | nil => rfl
  | cons i p ih =>
      show raceResFold outcomes p
          (raceResStep (some (Settlement.rejected r)) outcomes[i]?)
        = some (Settlement.rejected r)
      rw [raceResStep_of_genuineRejected r hr]
      exact ih

theorem raceResFold_someStart (outcomes : List (Settlement α))
    (s0 : Settlement α)
    (hs0 : ∀ r, s0 = Settlement.rejected r → isAbortError r = true) :
    ∀ p : List Nat,
      raceResFold outcomes p (some s0)
        = match firstGenuineReason outcomes p with
          | some g => some (Settlement.rejected g)
          | none => some s0 := by
  intro p
  induction p with
  | nil => rfl
  | cons i p ih =>
      show raceResFold outcomes p (raceResStep (some s0) outcomes[i]?)
        = match firstGenuineReason outcomes (i :: p) with
          | some g => some (Settlement.rejected g)
          | none => some s0
      rw [firstGenuineReason_cons]
      cases ho : outcomes[i]? with
      | none =>
          have h1 : genuineReasonAt outcomes i = none := by
            unfold genuineReasonAt; rw [ho]
          rw [h1]
          simpa [raceResStep] using ih
      | some o =>
          cases o with
          | fulfilled v =>
              have h1 : genuineReasonAt outcomes i = none := by
                unfold genuineReasonAt; rw [ho]
              rw [h1]
              have : raceResStep (some s0)
                  ((some (Settlement.fulfilled v)) : Option (Settlement α))
                  = some s0 := rfl
              rw [this]
              exact ih
          | rejected r2 =>
              cases hr2 : isAbortError r2 with
              | false =>
                  have h1 : genuineReasonAt outcomes i = some r2 := by
                    unfold genuineReasonAt; rw [ho]; simp [hr2]
                  rw [h1]
                  have hrec : raceShouldRecord (some s0) r2 = true := by
                    cases s0 with
                    | fulfilled v => simp [raceShouldRecord, hr2]
                    | rejected old =>
                        simp [raceShouldRecord, hr2, hs0 old rfl]
                  have : raceResStep (some s0)
                      ((some (Settlement.rejected r2)) :
                        Option (Settlement α))
                      = some (Settlement.rejected r2) := by
                    simp [raceResStep, hrec]
                  rw [this]
                  exact raceResFold_genuineRejected outcomes r2 hr2 p
              | true =>
                  have h1 : genuineReasonAt outcomes i = none := by
                    unfold genuineReasonAt; rw [ho]; simp [hr2]
                  rw [h1]
                  have hrec : raceShouldRecord (some s0) r2 = false := by
                    cases s0 with
                    | fulfilled v => simp [raceShouldRecord, hr2]
                    | rejected old => simp [raceShouldRecord, hr2]
                  have : raceResStep (some s0)
                      ((some (Settlement.rejected r2)) :
                        Option (Settlement α))
                      = some s0 := by
                    simp [raceResStep, hrec]
                  rw [this]
                  exact ih

theorem raceResFold_none (outcomes : List (Settlement α)) :
    ∀ p : List Nat,
      raceResFold outcomes p none
        = match firstGenuineReason outcomes p with
          | some g => some (Settlement.rejected g)
          | none => firstSettle outcomes p := by
  intro p
  induction p with
  | nil => rfl
  | cons i p ih =>
      show raceResFold outcomes p (raceResStep none outcomes[i]?)
        = match firstGenuineReason outcomes (i :: p) with
          | some g => some (Settlement.rejected g)
          | none => firstSettle outcomes (i :: p)
      rw [firstGenuineReason_cons, firstSettle_cons]
      cases ho : outcomes[i]? with
      | none =>
          have h1 : genuineReasonAt outcomes i = none := by
            unfold genuineReasonAt; rw [ho]
          rw [h1]
          simpa [raceResStep] using ih
      | some o =>
          cases o with
          | fulfilled v =>
              have h1 : genuineReasonAt outcomes i = none := by
                unfold genuineReasonAt; rw [ho]
              rw [h1]
              have : raceResStep (none : Option (Settlement α))
                  (some (Settlement.fulfilled v))
                  = some (Settlement.fulfilled v) := rfl
              rw [this]
              exact raceResFold_someStart outcomes (Settlement.fulfilled v)
                (fun r h => by cases h) p
          | rejected r2 =>
              have hstep : raceResStep (none : Option (Settlement α))
                  (some (Settlement.rejected r2))
                  = some (Settlement.rejected r2) := by
                simp [raceResStep, raceShouldRecord]
              rw [hstep]
              cases hr2 : isAbortError r2 with
              | false =>
                  have h1 : genuineReasonAt outcomes i = some r2 := by
                    unfold genuineReasonAt; rw [ho]; simp [hr2]
                  rw [h1]
                  exact raceResFold_genuineRejected outcomes r2 hr2 p
              | true =>
                  have h1 : genuineReasonAt outcomes i = none := by
                    unfold genuineReasonAt; rw [ho]; simp [hr2]
                  rw [h1]
                  rw [raceResFold_someStart outcomes (Settlement.rejected r2)
                    (fun r h => by cases h; exact hr2) p]

/-! ### Bridging lemmas -/

theorem genuineReasonAt_genuine (outcomes : List (Settlement α)) (i : Nat)
    (g : JsValue) (h : genuineReasonAt outcomes i = some g) :
    isAbortError g = false := by
  revert h
  unfold genuineReasonAt
  cases outcomes[i]? with
  | none => intro h; cases h
  | some o =>
      cases o with
      | fulfilled v => intro h; cases h
      | rejected r =>
          cases hr : isAbortError r with
          | false =>
              intro h
              simp [hr] at h
              rw [← h]
              exact hr
          | true => intro h; simp [hr] at h

theorem isAbortError_of_firstGenuineReason (outcomes : List (Settlement α))
    (order : List Nat) (g : JsValue)
    (h : firstGenuineReason outcomes order = some g) :
    isAbortError g = false := by
  unfold firstGenuineReason at h
  cases hfm : order.filterMap (genuineReasonAt outcomes) with
  | nil => rw [hfm] at h; cases h
  | cons a t =>
      rw [hfm] at h
      have ha : a = g := by simpa using h
      subst ha
      have hmem : a ∈ order.filterMap (genuineReasonAt outcomes) := by
        rw [hfm]; exact List.mem_cons_self a t
      obtain ⟨i, _, hgi⟩ := List.mem_filterMap.mp hmem
      exact genuineReasonAt_genuine outcomes i a hgi

theorem firstGenuineReason_isSome (outcomes : List (Settlement α))
    (order : List Nat)
    (hperm : order.Perm (List.range outcomes.length))
    (hgen : hasGenuineRejection outcomes = true) :
    ∃ g, firstGenuineReason outcomes order = some g := by
  obtain ⟨s, hs, hp⟩ := List.any_eq_true.mp hgen
  obtain ⟨k, hk⟩ := List.get_of_mem hs
  cases s with
  | fulfilled v => simp at hp
  | rejected r =>
      have hr : isAbortError r = false := by
        simpa using hp
      have hidx : outcomes[k.1]? = some (Settlement.rejected r) := by
        rw [List.getElem?_eq_getElem k.2]
        exact congrArg some hk
      have hgat : genuineReasonAt outcomes k.1 = some r := by
        unfold genuineReasonAt; rw [hidx]; simp [hr]
      have hkmem : k.1 ∈ order :=
        hperm.mem_iff.mpr (List.mem_range.mpr k.2)
      unfold firstGenuineReason
      cases hfm : order.filterMap (genuineReasonAt outcomes) with
      | nil =>
          have hnone := (List.filterMap_eq_nil_iff.mp hfm) k.1 hkmem
          rw [hgat] at hnone
          cases hnone
      | cons a t => exact ⟨a, rfl⟩

theorem firstSettle_isSome (outcomes : List (Settlement α))
    (order : List Nat) (hne : order ≠ [])
    (hmem : ∀ i ∈ order, i < outcomes.length) :
    ∃ s, firstSettle outcomes order = some s := by
  cases order with
  | nil => exact absurd rfl hne
  | cons i p =>
      have hi : i < outcomes.length := hmem i (List.mem_cons_self i p)
      obtain ⟨o, ho⟩ : ∃ o, outcomes[i]? = some o :=
        ⟨_, List.getElem?_eq_getElem hi⟩
      refine ⟨o, ?_⟩
      rw [firstSettle_cons, ho]

theorem allFold_nil_id (α : Type) :
    ∀ (order : List Nat) (s : AllState α),
      order.foldl (allStep ([] : List (Settlement α))) s = s := by
  intro order
  induction order with
  | nil => intro s; rfl
  | cons i p ih =>
      intro s
      rw [List.foldl_cons]
      have : allStep ([] : List (Settlement α)) s i = s := rfl
      rw [this]
      exact ih s

theorem raceFold_nil_id (α : Type) :
    ∀ (order : List Nat) (s : RaceState α),
      order.foldl (raceStep ([] : List (Settlement α))) s = s := by
  intro order
  induction order with
  | nil => intro s; rfl
  | cons i p ih =>
      intro s
      rw [List.foldl_cons]
      have : raceStep ([] : List (Settlement α)) s i = s := rfl
      rw [this]
      exact ih s

/-- A sample cancellation error from some other realm. -/
def sampleAbort : JsValue := mkAbortError "realmA"

/-- A sample genuine (non-cancellation) error. -/
def sampleBoom : JsValue :=
  JsValue.vobj "Error" (JsValue.vstr "Error") (JsValue.vstr "boom")

/-! ### Claim theorems -/

/-- C8: `isAbortError` classifies a value by tag/shape alone: it returns
true exactly for the non-null values of typeof "object" whose `name`
property is the string "AbortError", and false for every other value;
the brand/realm of the object is irrelevant, so a structurally identical
error built by another copy of the class is recognized. -/
theorem isAbortError_shape_check :
    (∀ v : JsValue,
      isAbortError v = true ↔
        (jsTypeof v = "object" ∧ v ≠ JsValue.vnull ∧
          jsGetName v = JsValue.vstr "AbortError"))
    ∧ (∀ brand1 brand2 name msg,
        isAbortError (JsValue.vobj brand1 name msg)
          = isAbortError (JsValue.vobj brand2 name msg))
    ∧ (∀ brand, isAbortError (mkAbortError brand) = true) := by
  refine ⟨?_, ?_, ?_⟩
  · intro v
    cases v with
    | vnull =>
        simp [isAbortError, jsTypeof, jsIsNull, jsGetName, jsStrictEqStr]
    | vundefined =>
        simp [isAbortError, jsTypeof, jsIsNull, jsGetName, jsStrictEqStr]
    | vbool b =>
        simp [isAbortError, jsTypeof, jsIsNull, jsGetName, jsStrictEqStr]
    | vnum n =>
        simp [isAbortError, jsTypeof, jsIsNull, jsGetName, jsStrictEqStr]
    | vstr s =>
        simp [isAbortError, jsTypeof, jsIsNull, jsGetName, jsStrictEqStr]
    | vfunc f =>
        simp [isAbortError, jsTypeof, jsIsNull, jsGetName, jsStrictEqStr]
    | vobj b n m =>
        cases n <;>
          simp [isAbortError, jsTypeof, jsIsNull, jsGetName, jsStrictEqStr]
  · intro brand1 brand2 name msg
    cases name <;> rfl
  · intro brand
    rfl

/-- C9: `throwIfAborted` fails with a CancellationError exactly when the
token is aborted, and returns with no effect exactly when it is not. -/
theorem throwIfAborted_iff_aborted :
    ∀ sig : Signal,
      ((∃ e, throwIfAborted sig = Except.error e ∧ isAbortError e = true)
        ↔ sig.aborted = true)
      ∧ (throwIfAborted sig = Except.ok () ↔ sig.aborted = false) := by
  intro sig
  cases sig with
  | mk a =>
      cases a with
      | false =>
          refine ⟨⟨?_, ?_⟩, ⟨fun _ => rfl, fun _ => rfl⟩⟩
          · rintro ⟨e, he, _⟩
            cases he
          · intro h
            cases h
      | true =>
          refine ⟨⟨fun _ => rfl, fun _ => ⟨mkAbortError "es", rfl, rfl⟩⟩,
            ⟨?_, ?_⟩⟩
          · intro h
            cases h
          · intro h
            cases h

/-- C10: `catchAbortError` returns normally exactly when the error is a
cancellation error and rethrows it unchanged otherwise; dually,
`rethrowAbortError` throws the error unchanged exactly when it is a
cancellation error and returns normally otherwise. -/
theorem catchRethrowAbortError_iff :
    ∀ e : JsValue,
      (catchAbortError e = Except.ok () ↔ isAbortError e = true)
      ∧ (catchAbortError e = Except.error e ↔ isAbortError e = false)
      ∧ (rethrowAbortError e = Except.error e ↔ isAbortError e = true)
      ∧ (rethrowAbortError e = Except.ok () ↔ isAbortError e = false) := by
  intro e
  cases h : isAbortError e <;>
    simp [catchAbortError, rethrowAbortError, h]

/-- C5: with an already-aborted token both combinators reject immediately
with a fresh AbortError, and the executor is never consulted: the run does
not depend on the executor or on any settlement, so no child token is
created and no future is started. -/
theorem aborted_token_short_circuits :
    ∀ (α : Type) (ex1 ex2 : Unit → List (Settlement α))
      (order1 order2 : List Nat),
      allModel (Signal.mk true) ex1 order1
        = CombinatorRun.immediateReject (mkAbortError "lib")
      ∧ raceModel (Signal.mk true) ex1 order1
        = CombinatorRun.immediateReject (mkAbortError "lib")
      ∧ isAbortError (mkAbortError "lib") = true
      ∧ allModel (Signal.mk true) ex1 order1
        = allModel (Signal.mk true) ex2 order2
      ∧ raceModel (Signal.mk true) ex1 order1
        = raceModel (Signal.mk true) ex2 order2 := by
  intro α ex1 ex2 order1 order2
  exact ⟨rfl, rfl, by decide, rfl, rfl⟩

/-- C4: with a non-aborted token and an executor returning the empty
sequence, the `all` of the code never settles: no handler ever runs, so
after every settlement order the machine is still in its initial state,
the promise is still pending (no outcome) and the listener still attached —
the spec instead promises immediate fulfillment with the empty sequence. -/
theorem all_empty_sequence_never_fulfills :
    ∀ order : List Nat,
      allModel (Signal.mk false) (fun _ => ([] : List (Settlement Nat))) order
        = CombinatorRun.ran (allInit Nat 0)
      ∧ (allInit Nat 0).outcome = none
      ∧ (allInit Nat 0).listenerAttached = true := by
  intro order
  refine ⟨?_, rfl, rfl⟩
  show CombinatorRun.ran
      (allFoldState ([] : List (Settlement Nat)) order)
    = CombinatorRun.ran (allInit Nat 0)
  unfold allFoldState
  rw [allFold_nil_id]
  rfl

/-- C1: in `all`, the recorded aggregate failure is replaced by a newly
observed rejection reason exactly when no failure is recorded yet, or the
new reason is a genuine (non-cancellation) error while the recorded one is
a cancellation error; consequently, whenever every future rejects and at
least one rejection is genuine, the aggregate rejects with the
first-recorded genuine error — never with a cancellation error. -/
theorem all_genuine_rejection_precedence :
    (∀ (cur : Option JsValue) (reason : JsValue),
        shouldRecord cur reason = true ↔
          (cur = none ∨ (isAbortError reason = false ∧
            ∃ old, cur = some old ∧ isAbortError old = true)))
    ∧ ∀ (α : Type) (outcomes : List (Settlement α)) (order : List Nat),
        order.Perm (List.range outcomes.length) →
        allRejected outcomes = true →
        hasGenuineRejection outcomes = true →
        ∃ g, firstGenuineReason outcomes order = some g
          ∧ isAbortError g = false
          ∧ allOutcomeOf outcomes order = some (Except.error g) := by
  constructor
  · intro cur reason
    cases cur with
    | none => simp [shouldRecord]
    | some old =>
        simp only [shouldRecord, Bool.and_eq_true, Bool.not_eq_true',
          Option.some.injEq]
        constructor
        · rintro ⟨h1, h2⟩
          exact Or.inr ⟨h1, old, rfl, h2⟩
        · rintro (h | ⟨h1, old2, h2, h3⟩)
          · cases h
          · cases h2; exact ⟨h1, h3⟩
  · intro α outcomes order hperm hrej hgen
    have hmem : ∀ i ∈ order, i < outcomes.length := fun i hi =>
      List.mem_range.mp (hperm.mem_iff.mp hi)
    have hlen : order.length = outcomes.length := by
      rw [hperm.length_eq, List.length_range]
    obtain ⟨g, hg⟩ := firstGenuineReason_isSome outcomes order hperm hgen
    have hgF : isAbortError g = false :=
      isAbortError_of_firstGenuineReason outcomes order g hg
    have hpos : 0 < outcomes.length := by
      obtain ⟨s, hs, _⟩ := List.any_eq_true.mp hgen
      exact List.length_pos.mpr (List.ne_nil_of_mem hs)
    have hne : order ≠ [] := by
      intro h
      rw [h] at hlen
      simp at hlen
      omega
    obtain ⟨_, _, hout⟩ := allFold_completes outcomes order
      (allInit α outcomes.length) hmem
      (by show 0 + order.length = outcomes.length
          rw [Nat.zero_add, hlen]) hne
    have hrejection :
        (order.foldl (allStep outcomes) (allInit α outcomes.length)).rejection
          = some g := by
      rw [allFold_rejection_eq_rejFold]
      show rejFold outcomes order none = some g
      rw [rejFold_none outcomes order, hg]
    refine ⟨g, hg, hgF, ?_⟩
    show (order.foldl (allStep outcomes) (allInit α outcomes.length)).outcome
      = some (Except.error g)
    rw [hout, hrejection]

/-- C1 witness: three rejecting futures, the genuine error at index 1
settling second; the aggregate rejects with that genuine error. -/
theorem all_genuine_rejection_precedence_witness :
    isAbortError sampleBoom = false
    ∧ allOutcomeOf
        ([Settlement.rejected sampleAbort, Settlement.rejected sampleBoom,
          Settlement.rejected sampleAbort] : List (Settlement Nat))
        [0, 1, 2] = some (Except.error sampleBoom) := by
  obtain ⟨g, hg, hgf, hout⟩ := all_genuine_rejection_precedence.2 Nat
    [Settlement.rejected sampleAbort, Settlement.rejected sampleBoom,
      Settlement.rejected sampleAbort]
    [0, 1, 2] (by decide) (by decide) (by decide)
  have hgv : sampleBoom = g := by
    have hcomp : firstGenuineReason
        ([Settlement.rejected sampleAbort, Settlement.rejected sampleBoom,
          Settlement.rejected sampleAbort] : List (Settlement Nat))
        [0, 1, 2] = some sampleBoom := rfl
    exact Option.some.inj (hcomp.symm.trans hg)
  rw [← hgv] at hgf hout
  exact ⟨hgf, hout⟩

/-- C6: whenever `all` fulfills, the output sequence holds at every index
exactly the value produced by the future at that index of the executor
sequence, whatever the settlement order was. -/
theorem all_results_preserve_input_order :
    ∀ (α : Type) (outcomes : List (Settlement α)) (order : List Nat)
      (values : List (Option α)),
      order.Perm (List.range outcomes.length) →
      allOutcomeOf outcomes order = some (Except.ok values) →
      values = outcomes.map (fun s => match s with
        | Settlement.fulfilled v => some v
        | Settlement.rejected _ => none)
      ∧ ∀ (i : Nat) (v : α), outcomes[i]? = some (Settlement.fulfilled v) →
          values[i]? = some (some v) := by
  intro α outcomes order values hperm hout
  have hmem : ∀ i ∈ order, i < outcomes.length := fun i hi =>
    List.mem_range.mp (hperm.mem_iff.mp hi)
  have hlen : order.length = outcomes.length := by
    rw [hperm.length_eq, List.length_range]
  by_cases h0 : order = []
  · rw [h0] at hout
    cases hout
  · obtain ⟨_, _, hfin⟩ := allFold_completes outcomes order
      (allInit α outcomes.length) hmem
      (by show 0 + order.length = outcomes.length
          rw [Nat.zero_add, hlen]) h0
    have hout2 :
        (order.foldl (allStep outcomes)
          (allInit α outcomes.length)).outcome
          = some (Except.ok values) := hout
    rw [hfin] at hout2
    have hrejection :
        (order.foldl (allStep outcomes)
          (allInit α outcomes.length)).rejection
          = match firstGenuineReason outcomes order with
            | some g => some g
            | none => firstReason outcomes order := by
      rw [allFold_rejection_eq_rejFold]
      exact rejFold_none outcomes order
    cases hfg : firstGenuineReason outcomes order with
    | some g =>
        rw [hfg] at hrejection
        rw [hrejection] at hout2
        simp at hout2
    | none =>
        rw [hfg] at hrejection
        cases hfr : firstReason outcomes order with
        | some r =>
            rw [hfr] at hrejection
            rw [hrejection] at hout2
            simp at hout2
        | none =>
            rw [hfr] at hrejection
            rw [hrejection] at hout2
            simp only [Option.some.injEq, Except.ok.injEq] at hout2
            have hful : ∀ i, i < outcomes.length →
                ∃ v, outcomes[i]? = some (Settlement.fulfilled v) := by
              intro i hi
              have hiord : i ∈ order :=
                hperm.mem_iff.mpr (List.mem_range.mpr hi)
              have hnone : reasonAt outcomes i = none := by
                have hfm : order.filterMap (reasonAt outcomes) = [] := by
                  have := hfr
                  unfold firstReason at this
                  exact List.head?_eq_none_iff.mp this
                exact (List.filterMap_eq_nil_iff.mp hfm) i hiord
              obtain ⟨o, ho⟩ : ∃ o, outcomes[i]? = some o :=
                ⟨_, List.getElem?_eq_getElem hi⟩
              cases o with
              | fulfilled v => exact ⟨v, ho⟩
              | rejected r =>
                  unfold reasonAt at hnone
                  rw [ho] at hnone
                  cases hnone
            have hres :
                (order.foldl (allStep outcomes)
                  (allInit α outcomes.length)).results
                  = outcomes.map (fun s => match s with
                    | Settlement.fulfilled v => some v
                    | Settlement.rejected _ => none) := by
              have hres1 :
                  (order.foldl (allStep outcomes)
                    (allInit α outcomes.length)).results
                    = order.foldl (resStep outcomes)
                        (List.replicate outcomes.length none) :=
                allFold_results outcomes order (allInit α outcomes.length)
              rw [hres1]
              apply List.ext_getElem?
              intro j
              by_cases hj : j < outcomes.length
              · rw [resFold_getElem outcomes order
                  (List.replicate outcomes.length none) j
                  (List.length_replicate _ _) hj]
                have hjord : j ∈ order :=
                  hperm.mem_iff.mpr (List.mem_range.mpr hj)
                rw [if_pos hjord]
                obtain ⟨v, hv⟩ := hful j hj
                rw [hv, List.getElem?_map, hv]
                rfl
              · have h1 : (order.foldl (resStep outcomes)
                    (List.replicate outcomes.length none)).length
                    = outcomes.length := by
                  rw [resFold_length, List.length_replicate]
                have h2 : (outcomes.map (fun s => match s with
                    | Settlement.fulfilled v => some v
                    | Settlement.rejected _ => none)).length
                    = outcomes.length := List.length_map _ _
                rw [List.getElem?_eq_none (by omega),
                  List.getElem?_eq_none (by omega)]
            have hvals : values = outcomes.map (fun s => match s with
                | Settlement.fulfilled v => some v
                | Settlement.rejected _ => none) := by
              rw [← hout2, hres]
            refine ⟨hvals, ?_⟩
            intro i v hiv
            rw [hvals, List.getElem?_map, hiv]
            rfl

/-- C6 witness: futures fulfilling with 3, 1, 2 settling in the order
index 1, index 0, index 2 still yield the values in input order. -/
theorem all_results_preserve_input_order_witness :
    ([some 3, some 1, some 2] : List (Option Nat))
      = ([Settlement.fulfilled 3, Settlement.fulfilled 1,
          Settlement.fulfilled 2] : List (Settlement Nat)).map
          (fun s => match s with
            | Settlement.fulfilled v => some v
            | Settlement.rejected _ => none) :=
  (all_results_preserve_input_order Nat
    [Settlement.fulfilled 3, Settlement.fulfilled 1, Settlement.fulfilled 2]
    [1, 0, 2] [some 3, some 1, some 2] (by decide) rfl).1

/-- C2 counterexample: two futures, the first settling with a cancellation
rejection, the second fulfilling.  The priority rule of the claim picks the
fulfillment (there is no genuine rejection), but the code keeps the
first-recorded settlement and rejects with the cancellation error. -/
theorem race_priority_claim_counterexample :
    [0, 1].Perm (List.range ([Settlement.rejected sampleAbort,
        Settlement.fulfilled 1] : List (Settlement Nat)).length)
    ∧ raceOutcomeOf ([Settlement.rejected sampleAbort,
        Settlement.fulfilled 1] : List (Settlement Nat)) [0, 1]
      = some (Except.error sampleAbort)
    ∧ specRacePriorityRule ([Settlement.rejected sampleAbort,
        Settlement.fulfilled 1] : List (Settlement Nat)) [0, 1]
      = some (Except.ok 1)
    ∧ (some (Except.error sampleAbort) : Option (Except JsValue Nat))
      ≠ some (Except.ok 1) := by
  refine ⟨by decide, rfl, rfl, ?_⟩
  intro h
  injection h with h2
  exact Except.noConfusion h2

/-- C2 amended: once every future has settled, a genuine (non-cancellation)
rejection always wins — the first-recorded one when there are several — and
it overrides any recorded fulfillment or cancellation-rejection; absent any
genuine rejection, the outcome of the first-settled future wins, whether it
is a fulfillment or a cancellation-rejection (a later fulfillment does not
override an earlier cancellation-rejection). -/
theorem race_priority_amended :
    ∀ (α : Type) (outcomes : List (Settlement α)) (order : List Nat),
      order.Perm (List.range outcomes.length) →
      order ≠ [] →
      ∃ s0, firstSettle outcomes order = some s0 ∧
        raceOutcomeOf outcomes order =
          some (match firstGenuineReason outcomes order with
            | some g => Except.error g
            | none => match s0 with
              | Settlement.fulfilled v => Except.ok v
              | Settlement.rejected r => Except.error r) := by
  intro α outcomes order hperm hne
  have hmem : ∀ i ∈ order, i < outcomes.length := fun i hi =>
    List.mem_range.mp (hperm.mem_iff.mp hi)
  have hlen : order.length = outcomes.length := by
    rw [hperm.length_eq, List.length_range]
  obtain ⟨s0, hs0⟩ := firstSettle_isSome outcomes order hne hmem
  obtain ⟨_, _, hfin⟩ := raceFold_completes outcomes order (raceInit α) hmem
    (by show 0 + order.length = outcomes.length
        rw [Nat.zero_add, hlen]) hne
  have hresult :
      (order.foldl (raceStep outcomes) (raceInit α)).result
        = match firstGenuineReason outcomes order with
          | some g => some (Settlement.rejected g)
          | none => firstSettle outcomes order := by
    rw [raceFold_result]
    exact raceResFold_none outcomes order
  refine ⟨s0, hs0, ?_⟩
  show (order.foldl (raceStep outcomes) (raceInit α)).outcome = _
  rw [hfin]
  cases hfg : firstGenuineReason outcomes order with
  | some g =>
      rw [hfg] at hresult
      rw [hresult]
  | none =>
      rw [hfg, hs0] at hresult
      rw [hresult]
      cases s0 with
      | fulfilled v => rfl
      | rejected r => rfl

/-- C2 amended witness: a fulfillment settles first, a genuine error
second; the aggregate rejects with the genuine error even though the
fulfillment settled first. -/
theorem race_priority_amended_witness :
    raceOutcomeOf ([Settlement.fulfilled 5, Settlement.rejected sampleBoom] :
        List (Settlement Nat)) [0, 1]
      = some (Except.error sampleBoom) := by
  obtain ⟨s0, hs0, hout⟩ := race_priority_amended Nat
    [Settlement.fulfilled 5, Settlement.rejected sampleBoom] [0, 1]
    (by decide) (by simp)
  have hsv : Settlement.fulfilled 5 = s0 := by
    have hcomp : firstSettle ([Settlement.fulfilled 5,
        Settlement.rejected sampleBoom] : List (Settlement Nat)) [0, 1]
        = some (Settlement.fulfilled 5) := rfl
    exact Option.some.inj (hcomp.symm.trans hs0)
  rw [← hsv] at hout
  exact hout

/-- C3: for a non-empty sequence of futures, neither combinator delivers an
aggregate outcome after any proper prefix of the settlements; the outcome
exists exactly from the step that processes the last settlement. -/
theorem aggregate_delivered_exactly_at_last_settlement :
    ∀ (α : Type) (outcomes : List (Settlement α)) (order : List Nat),
      order.Perm (List.range outcomes.length) →
      outcomes ≠ [] →
      (∀ k, k < order.length →
        (allFoldState outcomes (order.take k)).outcome = none
        ∧ (raceFoldState outcomes (order.take k)).outcome = none)
      ∧ (∃ res, (allFoldState outcomes order).outcome = some res)
      ∧ (∃ res, (raceFoldState outcomes order).outcome = some res) := by
  intro α outcomes order hperm hnil
  have hmem : ∀ i ∈ order, i < outcomes.length := fun i hi =>
    List.mem_range.mp (hperm.mem_iff.mp hi)
  have hlen : order.length = outcomes.length := by
    rw [hperm.length_eq, List.length_range]
  have hpos : 0 < outcomes.length := List.length_pos.mpr hnil
  have hne : order ≠ [] := by
    intro h
    rw [h] at hlen
    simp at hlen
    omega
  refine ⟨?_, ?_, ?_⟩
  · intro k hk
    have hkmem : ∀ i ∈ order.take k, i < outcomes.length := fun i hi =>
      hmem i (List.mem_of_mem_take hi)
    have hklen : (order.take k).length = k := by
      rw [List.length_take]
      omega
    constructor
    · obtain ⟨_, _, h3⟩ := allFold_pending outcomes (order.take k)
        (allInit α outcomes.length) hkmem
        (by show 0 + (order.take k).length < outcomes.length
            rw [Nat.zero_add, hklen]
            omega)
      exact h3
    · obtain ⟨_, _, h3⟩ := raceFold_pending outcomes (order.take k)
        (raceInit α) hkmem
        (by show 0 + (order.take k).length < outcomes.length
            rw [Nat.zero_add, hklen]
            omega)
      exact h3
  · obtain ⟨_, _, hfin⟩ := allFold_completes outcomes order
      (allInit α outcomes.length) hmem
      (by show 0 + order.length = outcomes.length
          rw [Nat.zero_add, hlen]) hne
    exact ⟨_, hfin⟩
  · obtain ⟨_, _, hfin⟩ := raceFold_completes outcomes order (raceInit α)
      hmem
      (by show 0 + order.length = outcomes.length
          rw [Nat.zero_add, hlen]) hne
    obtain ⟨s0, hs0⟩ := firstSettle_isSome outcomes order hne hmem
    have hresult :
        (order.foldl (raceStep outcomes) (raceInit α)).result
          = match firstGenuineReason outcomes order with
            | some g => some (Settlement.rejected g)
            | none => firstSettle outcomes order := by
      rw [raceFold_result]
      exact raceResFold_none outcomes order
    show ∃ res, (order.foldl (raceStep outcomes) (raceInit α)).outcome
      = some res
    rw [hfin]
    cases hfg : firstGenuineReason outcomes order with
    | some g =>
        rw [hfg] at hresult
        rw [hresult]
        exact ⟨_, rfl⟩
    | none =>
        rw [hfg, hs0] at hresult
        rw [hresult]
        cases s0 with
        | fulfilled v => exact ⟨_, rfl⟩
        | rejected r => exact ⟨_, rfl⟩

/-- C3 witness: two futures, one fulfilling and one rejecting with a
genuine error, settling in index order: no outcome after the first
settlement, an outcome after the second. -/
theorem aggregate_delivered_exactly_at_last_settlement_witness :
    (allFoldState ([Settlement.fulfilled 1, Settlement.rejected sampleBoom] :
        List (Settlement Nat)) (List.take 1 [0, 1])).outcome = none
    ∧ (raceFoldState ([Settlement.fulfilled 1,
        Settlement.rejected sampleBoom] :
        List (Settlement Nat)) (List.take 1 [0, 1])).outcome = none
    ∧ (allFoldState ([Settlement.fulfilled 1,
        Settlement.rejected sampleBoom] :
        List (Settlement Nat)) [0, 1]).outcome.isSome = true
    ∧ (raceFoldState ([Settlement.fulfilled 1,
        Settlement.rejected sampleBoom] :
        List (Settlement Nat)) [0, 1]).outcome.isSome = true := by
  obtain ⟨hpre, ⟨r1, h1⟩, ⟨r2, h2⟩⟩ :=
    aggregate_delivered_exactly_at_last_settlement Nat
      [Settlement.fulfilled 1, Settlement.rejected sampleBoom] [0, 1]
      (by decide) (by simp)
  refine ⟨(hpre 1 (by decide)).1, (hpre 1 (by decide)).2, ?_, ?_⟩
  · rw [h1]; rfl
  · rw [h2]; rfl

/-- C7 counterexample: with an executor returning no futures, all zero
futures have settled from the start, yet neither machine ever removes the
abort listener registered on the outer token — it stays attached in the
(initial, final) state of every run. -/
theorem listener_not_removed_on_empty_sequence :
    (allFoldState ([] : List (Settlement Nat)) []).settledCount
      = ([] : List (Settlement Nat)).length
    ∧ (allFoldState ([] : List (Settlement Nat)) []).listenerAttached = true
    ∧ (raceFoldState ([] : List (Settlement Nat)) []).settledCount
      = ([] : List (Settlement Nat)).length
    ∧ (raceFoldState ([] : List (Settlement Nat)) []).listenerAttached
      = true :=
  ⟨rfl, rfl, rfl, rfl⟩

/-- C7 amended: for every non-empty sequence of futures, in both
combinators the abort listener on the outer token is still attached after
every proper prefix of the settlements and is removed exactly at the step
processing the last settlement; for an empty sequence the listener is never
removed (the machine never leaves its initial state). -/
theorem listener_removed_exactly_at_last_settlement :
    ∀ (α : Type) (outcomes : List (Settlement α)) (order : List Nat),
      order.Perm (List.range outcomes.length) →
      outcomes ≠ [] →
      (∀ k, k < order.length →
        (allFoldState outcomes (order.take k)).listenerAttached = true
        ∧ (raceFoldState outcomes (order.take k)).listenerAttached = true)
      ∧ (allFoldState outcomes order).listenerAttached = false
      ∧ (raceFoldState outcomes order).listenerAttached = false
      ∧ (∀ order2 : List Nat,
          (allFoldState ([] : List (Settlement α)) order2).listenerAttached
            = true
          ∧ (raceFoldState ([] : List (Settlement α))
              order2).listenerAttached = true) := by
  intro α outcomes order hperm hnil
  have hmem : ∀ i ∈ order, i < outcomes.length := fun i hi =>
    List.mem_range.mp (hperm.mem_iff.mp hi)
  have hlen : order.length = outcomes.length := by
    rw [hperm.length_eq, List.length_range]
  have hpos : 0 < outcomes.length := List.length_pos.mpr hnil
  have hne : order ≠ [] := by
    intro h
    rw [h] at hlen
    simp at hlen
    omega
  refine ⟨?_, ?_, ?_, ?_⟩
  · intro k hk
    have hkmem : ∀ i ∈ order.take k, i < outcomes.length := fun i hi =>
      hmem i (List.mem_of_mem_take hi)
    have hklen : (order.take k).length = k := by
      rw [List.length_take]
      omega
    constructor
    · obtain ⟨_, h2, _⟩ := allFold_pending outcomes (order.take k)
        (allInit α outcomes.length) hkmem
        (by show 0 + (order.take k).length < outcomes.length
            rw [Nat.zero_add, hklen]
            omega)
      exact h2
    · obtain ⟨_, h2, _⟩ := raceFold_pending outcomes (order.take k)
        (raceInit α) hkmem
        (by show 0 + (order.take k).length < outcomes.length
            rw [Nat.zero_add, hklen]
            omega)
      exact h2
  · obtain ⟨_, h2, _⟩ := allFold_completes outcomes order
      (allInit α outcomes.length) hmem
      (by show 0 + order.length = outcomes.length
          rw [Nat.zero_add, hlen]) hne
    exact h2
  · obtain ⟨_, h2, _⟩ := raceFold_completes outcomes order (raceInit α)
      hmem
      (by show 0 + order.length = outcomes.length
          rw [Nat.zero_add, hlen]) hne
    exact h2
  · intro order2
    constructor
    · show (order2.foldl (allStep ([] : List (Settlement α)))
        (allInit α 0)).listenerAttached = true
      rw [allFold_nil_id]
      rfl
    · show (order2.foldl (raceStep ([] : List (Settlement α)))
        (raceInit α)).listenerAttached = true
      rw [raceFold_nil_id]
      rfl

/-- C7 amended witness: two futures settling in index order — listener
still attached after the first settlement, removed after the second; and
for the empty sequence the listener stays attached. -/
theorem listener_removed_exactly_at_last_settlement_witness :
    (allFoldState ([Settlement.fulfilled 1, Settlement.fulfilled 2] :
        List (Settlement Nat)) (List.take 1 [0, 1])).listenerAttached = true
    ∧ (raceFoldState ([Settlement.fulfilled 1, Settlement.fulfilled 2] :
        List (Settlement Nat)) (List.take 1 [0, 1])).listenerAttached = true
    ∧ (allFoldState ([Settlement.fulfilled 1, Settlement.fulfilled 2] :
        List (Settlement Nat)) [0, 1]).listenerAttached = false
    ∧ (raceFoldState ([Settlement.fulfilled 1, Settlement.fulfilled 2] :
        List (Settlement Nat)) [0, 1]).listenerAttached = false
    ∧ (allFoldState ([] : List (Settlement Nat)) [3]).listenerAttached
      = true := by
  obtain ⟨hpre, h1, h2, hempty⟩ :=
    listener_removed_exactly_at_last_settlement Nat
      [Settlement.fulfilled 1, Settlement.fulfilled 2] [0, 1]
      (by decide) (by simp)
  exact ⟨(hpre 1 (by decide)).1, (hpre 1 (by decide)).2, h1, h2,
    (hempty [3]).1⟩
end AbortControllerX
